import Mathlib

/-!
Verification of the two GPIO control programs of `ladderboard_game`:
the Direct-Register Toggler (`src/flash_fast.cpp`) and the Software-PWM
Driver.  The toggler's hardware-visible actions are modelled as events;
registers are 32-bit words addressed by word index inside the mapped
window.  The PWM driver's arithmetic is modelled over exact rationals.
-/

namespace Toggler

/-- Observable events of the Direct-Register Toggler.  `stderrMsg` stands
for `fprintf(stderr, ...)` / `perror`, i.e. buffered stdio output;
`readReg`/`writeReg` are volatile 32-bit accesses at a word index inside
the mapped window; `exitNow` is `_exit`. -/
inductive Ev where
  | stderrMsg
  | openDevMem
  | mmapCall
  | munmapCall
  | readReg (wordIdx : Nat)
  | writeReg (wordIdx : Nat) (val : Nat)
  | exitNow (code : Nat)
  deriving DecidableEq

/-- Constant `GPIO_LEN = 0xB4`: byte length of the mapped register window. -/
def GPIO_LEN : Nat := 0xB4

/-- Word index of the function-select register for `pin`: `pin / 10`
(`setPinOutput`, flash_fast.cpp line 124). -/
def fselIdx (pin : Nat) : Nat := pin / 10

/-- Bit shift of the pin's 3-bit function field: `(pin % 10) * 3`
(flash_fast.cpp line 125). -/
def fselShift (pin : Nat) : Nat := (pin % 10) * 3

/-- Word index written by `setPinHigh`: `0x1C/4 + pin/32` (GPSET group). -/
def setIdx (pin : Nat) : Nat := 0x1C / 4 + pin / 32

/-- Word index written by `setPinLow`: `0x28/4 + pin/32` (GPCLR group). -/
def clrIdx (pin : Nat) : Nat := 0x28 / 4 + pin / 32

/-- Single-bit mask `1u << (pin & 31)` used by every set/clear write. -/
def pinMask (pin : Nat) : Nat := 1 <<< (pin &&& 31)

/-- Function `setPinHigh`: one volatile write of the pin's mask to its GPSET
register (flash_fast.cpp lines 135-139). -/
def setPinHigh (pin : Nat) : List Ev := [Ev.writeReg (setIdx pin) (pinMask pin)]

/-- Function `setPinLow`: one volatile write of the pin's mask to its GPCLR
register (flash_fast.cpp lines 141-145). -/
def setPinLow (pin : Nat) : List Ev := [Ev.writeReg (clrIdx pin) (pinMask pin)]

/-- The 32-bit value `setPinOutput` writes back in its read-modify-write:
`(v & ~(0x7u << shift)) | (0x1u << shift)`, the complement taken in
32 bits. -/
def fselWrite (v s : Nat) : Nat :=
  (v &&& ((2 ^ 32 - 1) ^^^ (7 <<< s))) ||| (1 <<< s)

/-- Function `setPinOutput pin v`: read the function-select register (which holds
`v`), write back the modified value, then force the pin low
(flash_fast.cpp lines 123-133). -/
def setPinOutput (pin : Nat) (v : Nat) : List Ev :=
  [Ev.readReg (fselIdx pin), Ev.writeReg (fselIdx pin) (fselWrite v (fselShift pin))]
    ++ setPinLow pin

/-- One iteration of `main`'s tight toggle loop (flash_fast.cpp lines
46-58): write the mask to `gpio + 0x1C/4` then to `gpio + 0x28/4`.
Note the source computes these two pointers without any `+ pin/32`
term, unlike `setPinHigh`/`setPinLow`. -/
def loopIter (pin : Nat) : List Ev :=
  [Ev.writeReg (0x1C / 4) (pinMask pin), Ev.writeReg (0x28 / 4) (pinMask pin)]

/-- Function `sigHandler` (flash_fast.cpp lines 73-79): force the pin low,
`unmapGpio` (which calls `munmap` only when the window is mapped),
then `_exit(0)`. -/
def sigHandler (mapped : Bool) (pin : Nat) : List Ev :=
  setPinLow pin ++ (if mapped then [Ev.munmapCall] else []) ++ [Ev.exitNow 0]

/-- Characters skipped by C `atoi` (the `isspace` set). -/
def isSpaceChar (c : Char) : Bool :=
  c = ' ' || c = '\t' || c = '\n' || c = '\x0b' || c = '\x0c' || c = '\r'

/-- Accumulate the leading decimal digits of a character list; stops at
the first non-digit. -/
def digitsVal : List Char → Nat → Nat
  | [], acc => acc
  | c :: cs, acc =>
      if '0' ≤ c ∧ c ≤ '9' then digitsVal cs (acc * 10 + (c.toNat - '0'.toNat))
      else acc

/-- C `atoi`: skip whitespace, read an optional sign and then leading
decimal digits; a string with no leading digits yields 0. -/
def atoi (s : String) : Int :=
  match s.toList.dropWhile isSpaceChar with
  | '-' :: cs => -(digitsVal cs 0 : Int)
  | '+' :: cs => (digitsVal cs 0 : Int)
  | cs => (digitsVal cs 0 : Int)

/-- Events of `mapGpio` (flash_fast.cpp lines 89-114): open `/dev/mem`
(`perror` on failure), then `mmap` (`perror` on failure). -/
def mapGpio (openOk mmapOk : Bool) : List Ev :=
  [Ev.openDevMem] ++
    (if openOk then [Ev.mmapCall] ++ (if mmapOk then [] else [Ev.stderrMsg])
     else [Ev.stderrMsg])

/-- What `main` has done by the time it exits or enters the toggle loop.
`exitCode = none` means control reached the infinite toggle loop. -/
structure MainOutcome where
  trace : List Ev
  exitCode : Option Nat
  handlersInstalled : Bool
  gpioMapped : Bool
  targetPin : Int
  deriving DecidableEq

/-- Function `main` (flash_fast.cpp lines 26-58) up to the toggle loop.  `args` is
`argv[1..]`; `openOk`/`mmapOk` say whether `open("/dev/mem")` and `mmap`
succeed; `fselInit` is the value the function-select register holds when
`setPinOutput` reads it.  `targetPin` starts at -1 (flash_fast.cpp
line 12) and is assigned only after the argument-count check. -/
def mainRun (args : List String) (openOk mmapOk : Bool) (fselInit : Nat) :
    MainOutcome :=
  match args with
  | [a] =>
      if atoi a < 0 ∨ atoi a > 53 then
        { trace := [Ev.stderrMsg], exitCode := some 1,
          handlersInstalled := false, gpioMapped := false, targetPin := atoi a }
      else if openOk ∧ mmapOk then
        { trace := mapGpio openOk mmapOk ++ setPinOutput (atoi a).toNat fselInit,
          exitCode := none, handlersInstalled := true, gpioMapped := true,
          targetPin := atoi a }
      else
        { trace := mapGpio openOk mmapOk ++ [Ev.stderrMsg], exitCode := some 1,
          handlersInstalled := false, gpioMapped := false, targetPin := atoi a }
  | _ =>
      { trace := [Ev.stderrMsg], exitCode := some 1,
        handlersInstalled := false, gpioMapped := false, targetPin := -1 }

/-- C1 (code bug): the tight toggle loop does NOT select the set/clear
register by `pin / 32`; it always writes word offsets `0x1C/4 = 7`
(GPSET0) and `0x28/4 = 10` (GPCLR0).  At pin 32 the loop writes mask
`0x1` to register group 0 — the very writes pin 0 would produce — while
the claim (and the source's own helpers `setPinHigh`/`setPinLow`, which
do add `pin / 32`) place pin 32 in group 1 (word offsets 8 and 11).
Pin 31 does land in group 0 with mask `0x80000000` as claimed. -/
theorem loop_writes_group0_at_pin32 :
    loopIter 32 = [Ev.writeReg 7 1, Ev.writeReg 10 1]
      ∧ loopIter 32 = loopIter 0
      ∧ setIdx 32 = 8 ∧ clrIdx 32 = 11
      ∧ setPinHigh 32 = [Ev.writeReg 8 1]
      ∧ setPinLow 32 = [Ev.writeReg 11 1]
      ∧ loopIter 31 = [Ev.writeReg 7 0x80000000, Ev.writeReg 10 0x80000000] := by
  decide

/-- C6: the pin-configuration step selects function-select register
index `pin / 10` and 3-bit field shift `(pin % 10) * 3`; in particular
pin 0 gives register 0 shift 0, pin 21 register 2 shift 3, and pin 53
register 5 shift 9. -/
theorem fsel_computation (p : Nat) (_hp : p ≤ 53) :
    fselIdx p = p / 10 ∧ fselShift p = (p % 10) * 3
      ∧ fselIdx 0 = 0 ∧ fselShift 0 = 0
      ∧ fselIdx 21 = 2 ∧ fselShift 21 = 3
      ∧ fselIdx 53 = 5 ∧ fselShift 53 = 9 :=
  ⟨rfl, rfl, rfl, rfl, rfl, rfl, rfl, rfl⟩

/-- Witness for `fsel_computation` at pin 21. -/
theorem fsel_computation_witness :
    fselIdx 21 = 2 ∧ fselShift 21 = 3 :=
  ⟨(fsel_computation 21 (by decide)).2.2.2.2.1,
   (fsel_computation 21 (by decide)).2.2.2.2.2.1⟩

/-- C2 (counterexample): the argument "abc" is NOT rejected.  `atoi`
parses it to 0, which lies in [0,53], so validation passes: on a host
where the open fails the program has still attempted to open the
physical-memory device, and when mapping succeeds it proceeds to the
toggle loop instead of exiting with code 1. -/
theorem nonNumericArg_accepted :
    atoi "abc" = 0
      ∧ Ev.openDevMem ∈ (mainRun ["abc"] false false 0).trace
      ∧ (mainRun ["abc"] true true 0).exitCode = none := by
  decide

/-- C2 amended: any argument count other than one, and any single
argument whose `atoi` parse lies outside [0,53] (in particular "-1" and
"54"), is rejected with exit code 1 and a single stderr message, before
any attempt to open the physical-memory device; a non-numeric string,
however, parses to 0 and is accepted as pin 0. -/
theorem rejectedArgs_exit1_before_open
    (args : List String) (openOk mmapOk : Bool) (fselInit : Nat)
    (h : args.length ≠ 1 ∨ ∀ a ∈ args, atoi a < 0 ∨ atoi a > 53) :
    (mainRun args openOk mmapOk fselInit).exitCode = some 1
      ∧ (mainRun args openOk mmapOk fselInit).trace = [Ev.stderrMsg] := by
  rcases args with _ | ⟨a, _ | ⟨b, t⟩⟩
  · exact ⟨rfl, rfl⟩
  · rcases h with h | h
    · simp at h
    · have ha : atoi a < 0 ∨ atoi a > 53 := h a (by simp)
      simp [mainRun, if_pos ha]
  · exact ⟨rfl, rfl⟩

/-- Witness for `rejectedArgs_exit1_before_open` at the arguments "-1"
and "54". -/
theorem rejectedArgs_exit1_before_open_witness :
    ((mainRun ["-1"] true true 0).exitCode = some 1
        ∧ (mainRun ["-1"] true true 0).trace = [Ev.stderrMsg])
      ∧ ((mainRun ["54"] true true 0).exitCode = some 1
        ∧ (mainRun ["54"] true true 0).trace = [Ev.stderrMsg]) :=
  ⟨rejectedArgs_exit1_before_open ["-1"] true true 0 (Or.inr (by decide)),
   rejectedArgs_exit1_before_open ["54"] true true 0 (Or.inr (by decide))⟩

/-- C4: with the register window mapped, the signal handler first writes
the pin's single bit `2 ^ (pin % 32)` to the pin's clear register
(forcing the pin low), then unmaps the window, then terminates
immediately via `_exit(0)`; no buffered stdio output occurs in the
signal path. -/
theorem sigHandler_forces_low_unmaps_exits (p : Nat) (hp : p ≤ 53) :
    sigHandler true p =
        [Ev.writeReg (clrIdx p) (2 ^ (p % 32)), Ev.munmapCall, Ev.exitNow 0]
      ∧ Ev.stderrMsg ∉ sigHandler true p := by
  have h : ∀ q < 54, sigHandler true q =
        [Ev.writeReg (clrIdx q) (2 ^ (q % 32)), Ev.munmapCall, Ev.exitNow 0]
      ∧ Ev.stderrMsg ∉ sigHandler true q := by decide
  exact h p (by omega)

/-- Witness for `sigHandler_forces_low_unmaps_exits` at pin 17. -/
theorem sigHandler_forces_low_unmaps_exits_witness :
    sigHandler true 17 =
        [Ev.writeReg (clrIdx 17) (2 ^ (17 % 32)), Ev.munmapCall, Ev.exitNow 0]
      ∧ Ev.stderrMsg ∉ sigHandler true 17 :=
  sigHandler_forces_low_unmaps_exits 17 (by decide)

/-- C9: whenever `main` has installed the signal handlers, the register
window is mapped and the target pin lies in [0,53]: the handlers are
installed only after argument validation and a successful `mapGpio`. -/
theorem handlers_installed_implies_mapped_and_valid
    (args : List String) (openOk mmapOk : Bool) (fselInit : Nat)
    (h : (mainRun args openOk mmapOk fselInit).handlersInstalled = true) :
    (mainRun args openOk mmapOk fselInit).gpioMapped = true
      ∧ 0 ≤ (mainRun args openOk mmapOk fselInit).targetPin
      ∧ (mainRun args openOk mmapOk fselInit).targetPin ≤ 53 := by
  rcases args with _ | ⟨a, _ | ⟨b, t⟩⟩
  · simp [mainRun] at h
  · by_cases h1 : atoi a < 0 ∨ atoi a > 53
    · simp only [mainRun, if_pos h1] at h
      simp at h
    · by_cases h2 : openOk ∧ mmapOk
      · simp [mainRun, if_neg h1, if_pos h2]
        omega
      · simp only [mainRun, if_neg h1, if_neg h2] at h
        simp at h
  · simp [mainRun] at h

/-- Witness for `handlers_installed_implies_mapped_and_valid` at the
argument list ["17"] with both mapping steps succeeding. -/
theorem handlers_installed_implies_mapped_and_valid_witness :
    (mainRun ["17"] true true 0).gpioMapped = true
      ∧ 0 ≤ (mainRun ["17"] true true 0).targetPin
      ∧ (mainRun ["17"] true true 0).targetPin ≤ 53 :=
  handlers_installed_implies_mapped_and_valid ["17"] true true 0 (by decide)

/-- In-bounds predicate for one event: a register access at word index
`i` touches bytes `4*i .. 4*i+3`, which must lie inside the mapped
window of `GPIO_LEN` bytes. -/
def evInBounds : Ev → Prop
  | Ev.readReg i => 4 * i + 4 ≤ GPIO_LEN
  | Ev.writeReg i _ => 4 * i + 4 ≤ GPIO_LEN
  | _ => True

/-- C10: for every pin in [0,53] and any value read from the
function-select register, every register access the toggler performs —
the function-select read-modify-write, the helpers' set/clear writes at
`0x1C + 4*(pin/32)` and `0x28 + 4*(pin/32)`, the tight loop's writes,
and the signal handler's final clear — lies within the mapped window of
`GPIO_LEN = 0xB4` bytes. -/
theorem register_accesses_in_bounds (p v : Nat) (hp : p ≤ 53) :
    ∀ e ∈ setPinOutput p v ++ loopIter p ++ setPinHigh p ++ setPinLow p
        ++ sigHandler true p, evInBounds e := by
  intro e he
  have h10 : p / 10 ≤ 5 := by omega
  have h32 : p / 32 ≤ 1 := by omega
  simp only [setPinOutput, loopIter, setPinHigh, setPinLow, sigHandler, if_true,
    List.append_assoc, List.mem_append, List.mem_cons, List.not_mem_nil,
    or_false] at he
  casesm* _ ∨ _ <;> subst_vars <;>
    simp only [evInBounds, fselIdx, setIdx, clrIdx, GPIO_LEN] <;> omega

/-- Witness for `register_accesses_in_bounds` at pin 53. -/
theorem register_accesses_in_bounds_witness :
    evInBounds (Ev.writeReg (clrIdx 53) (pinMask 53)) :=
  register_accesses_in_bounds 53 0 (by decide)
    (Ev.writeReg (clrIdx 53) (pinMask 53)) (by decide)

/-- Bits outside the 3-bit window starting at `s` are unchanged by the
read-modify-write value computation (for a 32-bit register value `v`). -/
theorem fselWrite_testBit_outside (v s i : Nat) (hv : v < 2 ^ 32)
    (hi : i < s ∨ s + 3 ≤ i) :
    (fselWrite v s).testBit i = v.testBit i := by
  have hB7 : Nat.testBit (7 <<< s) i = false := by
    rw [Nat.testBit_shiftLeft]
    rcases hi with hi | hi
    · simp [Nat.not_le.mpr hi]
    · have h3 : Nat.testBit 7 (i - s) = false :=
        Nat.testBit_lt_two_pow (lt_of_lt_of_le (by norm_num)
          (Nat.pow_le_pow_right (by norm_num) (by omega : 3 ≤ i - s)))
      simp [h3]
  have hB1 : Nat.testBit (1 <<< s) i = false := by
    rw [Nat.testBit_shiftLeft]
    rcases hi with hi | hi
    · simp [Nat.not_le.mpr hi]
    · have h3 : Nat.testBit 1 (i - s) = false :=
        Nat.testBit_lt_two_pow (lt_of_lt_of_le (by norm_num)
          (Nat.pow_le_pow_right (by norm_num) (by omega : 1 ≤ i - s)))
      simp [h3]
  rcases Nat.lt_or_ge i 32 with h32 | h32
  · have hM : Nat.testBit (2 ^ 32 - 1) i = true := by
      rw [Nat.testBit_two_pow_sub_one]
      exact decide_eq_true h32
    rw [fselWrite, Nat.testBit_or, Nat.testBit_and, Nat.testBit_xor, hM, hB7, hB1]
    simp
  · have hM : Nat.testBit (2 ^ 32 - 1) i = false := by
      rw [Nat.testBit_two_pow_sub_one]
      simp
      omega
    have hvi : v.testBit i = false :=
      Nat.testBit_lt_two_pow (lt_of_lt_of_le hv
        (Nat.pow_le_pow_right (by norm_num) h32))
    rw [fselWrite, Nat.testBit_or, Nat.testBit_and, Nat.testBit_xor, hM, hB7, hB1,
      hvi]
    simp

/-- The 3-bit window starting at `s` holds 001 after the read-modify-write
value computation. -/
theorem fselWrite_field (v s : Nat) (hs : s + 3 ≤ 32) :
    ((fselWrite v s) >>> s) % 8 = 1 := by
  have key : ∀ k, k < 3 → (fselWrite v s).testBit (s + k) = decide (k = 0) := by
    intro k hk
    have hsk : s + k < 32 := by omega
    have hM : Nat.testBit (2 ^ 32 - 1) (s + k) = true := by
      rw [Nat.testBit_two_pow_sub_one]
      exact decide_eq_true hsk
    have hsub : s + k - s = k := by omega
    have h7 : Nat.testBit (7 <<< s) (s + k) = true := by
      rw [Nat.testBit_shiftLeft, hsub]
      have h7k : Nat.testBit 7 k = true := by interval_cases k <;> decide
      simp [h7k]
    have h1 : Nat.testBit (1 <<< s) (s + k) = decide (k = 0) := by
      rw [Nat.testBit_shiftLeft, hsub]
      have h1k : Nat.testBit 1 k = decide (k = 0) := by interval_cases k <;> decide
      simp [h1k]
    rw [fselWrite, Nat.testBit_or, Nat.testBit_and, Nat.testBit_xor, hM, h7, h1]
    simp
  apply Nat.eq_of_testBit_eq
  intro i
  have h8 : (8 : Nat) = 2 ^ 3 := by norm_num
  rw [h8, Nat.testBit_mod_two_pow, Nat.testBit_shiftRight]
  rcases Nat.lt_or_ge i 3 with hi3 | hi3
  · have hk := key i hi3
    have h1i : Nat.testBit 1 i = decide (i = 0) := by interval_cases i <;> decide
    simp [hk, hi3, h1i]
  · have hlhs : ¬ i < 3 := by omega
    have hrhs : Nat.testBit 1 i = false :=
      Nat.testBit_lt_two_pow (lt_of_lt_of_le (by norm_num)
        (Nat.pow_le_pow_right (by norm_num) (by omega : 1 ≤ i)))
    simp [hlhs, hrhs]

/-- C7: configuring pin `p` as output performs a read-modify-write of the
function-select register: every bit outside the pin's 3-bit field keeps
its prior value `v`, the 3-bit field becomes the output encoding 001,
and immediately afterwards the pin's clear-register bit is written, so
the pin is driven low before the toggle loop starts. -/
theorem setPinOutput_rmw_frame (p v : Nat) (_hp : p ≤ 53) (hv : v < 2 ^ 32) :
    (∀ i, i < fselShift p ∨ fselShift p + 3 ≤ i →
        (fselWrite v (fselShift p)).testBit i = v.testBit i)
      ∧ ((fselWrite v (fselShift p)) >>> fselShift p) % 8 = 1
      ∧ setPinOutput p v = [Ev.readReg (fselIdx p),
          Ev.writeReg (fselIdx p) (fselWrite v (fselShift p)),
          Ev.writeReg (clrIdx p) (pinMask p)] := by
  have hs : fselShift p + 3 ≤ 32 := by
    unfold fselShift
    omega
  exact ⟨fun i hi => fselWrite_testBit_outside v (fselShift p) i hv hi,
    fselWrite_field v (fselShift p) hs, rfl⟩

/-- Witness for `setPinOutput_rmw_frame` at pin 21 and prior register
value `0xFFFFFFFF`. -/
theorem setPinOutput_rmw_frame_witness :
    (fselWrite 0xFFFFFFFF (fselShift 21)).testBit 0 = Nat.testBit 0xFFFFFFFF 0
      ∧ ((fselWrite 0xFFFFFFFF (fselShift 21)) >>> fselShift 21) % 8 = 1 :=
  ⟨(setPinOutput_rmw_frame 21 0xFFFFFFFF (by decide) (by norm_num)).1 0
      (by decide),
   (setPinOutput_rmw_frame 21 0xFFFFFFFF (by decide) (by norm_num)).2.1⟩

end Toggler

namespace Pwm

/-- C `(long)` cast of a real value: truncation toward zero. -/
def cLong (q : ℚ) : ℤ := if q < 0 then -⌊-q⌋ else ⌊q⌋

/-- The three durations the Software-PWM Driver derives at startup. -/
structure PwmTimings where
  periodUs : ℚ
  onTimeUs : ℤ
  offTimeUs : ℤ
  deriving DecidableEq

/-- The Software-PWM Driver's timing computation (part_000 lines 26-39):
sequential safety clamps on brightness and frequency, then
`periodUs = 1000000 / f`, `onTimeUs = (long)(periodUs * (b / 100))`,
`offTimeUs = (long)(periodUs - onTimeUs)`, over exact rationals. -/
def pwmCompute (frequencyHz brightnessPercent : ℚ) : PwmTimings :=
  let b1 : ℚ := if brightnessPercent < 0 then 0 else brightnessPercent
  let b2 : ℚ := if b1 > 100 then 100 else b1
  let f : ℚ := if frequencyHz ≤ 0 then 1 else frequencyHz
  let periodUs : ℚ := 1000000 / f
  let onTimeUs : ℤ := cLong (periodUs * (b2 / 100))
  let offTimeUs : ℤ := cLong (periodUs - (onTimeUs : ℚ))
  ⟨periodUs, onTimeUs, offTimeUs⟩

/-- Observable actions of the PWM driver's loop body. -/
inductive PwmEv where
  | setLine (v : Nat)
  | sleepMicros (d : ℤ)
  deriving DecidableEq

/-- One iteration of the PWM main loop (part_000 lines 50-62): the high
phase runs only when `onTimeUs > 0`, the low phase only when
`offTimeUs > 0`. -/
def pwmLoopIter (t : PwmTimings) : List PwmEv :=
  (if t.onTimeUs > 0 then [PwmEv.setLine 1, PwmEv.sleepMicros t.onTimeUs] else [])
    ++ (if t.offTimeUs > 0 then [PwmEv.setLine 0, PwmEv.sleepMicros t.offTimeUs]
        else [])

/-- The C cast agrees with the floor on nonnegative arguments. -/
theorem cLong_eq_floor (q : ℚ) (h : 0 ≤ q) : cLong q = ⌊q⌋ :=
  if_neg (not_lt.mpr h)

/-- For valid inputs, `onTimeUs` is the floor of `period * b/100` and
`offTimeUs` is `⌊period⌋ - onTimeUs`. -/
theorem pwmCompute_off_eq (f b : ℚ) (hf : 0 < f) (hb0 : 0 ≤ b) (hb1 : b ≤ 100) :
    (pwmCompute f b).onTimeUs = ⌊1000000 / f * (b / 100)⌋
      ∧ (pwmCompute f b).offTimeUs
          = ⌊(1000000 : ℚ) / f⌋ - (pwmCompute f b).onTimeUs := by
  have hnb : ¬ b < 0 := not_lt.mpr hb0
  have hnb2 : ¬ b > 100 := not_lt.mpr hb1
  have hnf : ¬ f ≤ 0 := not_le.mpr hf
  simp only [pwmCompute, if_neg hnb, if_neg hnb2, if_neg hnf]
  have hP : (0 : ℚ) ≤ 1000000 / f := by positivity
  have harg : (0 : ℚ) ≤ 1000000 / f * (b / 100) :=
    mul_nonneg hP (div_nonneg hb0 (by norm_num))
  have hon : cLong (1000000 / f * (b / 100)) = ⌊1000000 / f * (b / 100)⌋ :=
    cLong_eq_floor _ harg
  rw [hon]
  refine ⟨rfl, ?_⟩
  have hle : (⌊1000000 / f * (b / 100)⌋ : ℚ) ≤ 1000000 / f := by
    calc (⌊1000000 / f * (b / 100)⌋ : ℚ)
        ≤ 1000000 / f * (b / 100) := Int.floor_le _
      _ ≤ 1000000 / f * 1 := by
          apply mul_le_mul_of_nonneg_left _ hP
          rw [div_le_one (by norm_num)]
          exact hb1
      _ = 1000000 / f := mul_one _
  have hoffarg : (0 : ℚ) ≤ 1000000 / f - (⌊1000000 / f * (b / 100)⌋ : ℚ) := by
    linarith
  rw [cLong_eq_floor _ hoffarg, Int.floor_sub_int]

/-- C3 (counterexample): at frequency 2000000 Hz and brightness 50, the
period is 0.5 microseconds, so both phases truncate to 0: `onTimeUs = 0`
with `b ≠ 0` and `offTimeUs = 0` with `b ≠ 100`, refuting both
"if and only if" parts of the claim.  (All double operations at this
input are exact, so the rational model matches the C code here.) -/
theorem pwm_duty_iff_fails :
    ¬((pwmCompute 2000000 50).onTimeUs = 0 ↔ (50 : ℚ) = 0)
      ∧ ¬((pwmCompute 2000000 50).offTimeUs = 0 ↔ (50 : ℚ) = 100) := by
  constructor
  · intro h
    have h0 : (pwmCompute 2000000 50).onTimeUs = 0 := by
      norm_num [pwmCompute, cLong]
    have := h.mp h0
    norm_num at this
  · intro h
    have h0 : (pwmCompute 2000000 50).offTimeUs = 0 := by
      norm_num [pwmCompute, cLong]
    have := h.mp h0
    norm_num at this

/-- C3 amended: for every rational frequency `f > 0` and brightness
`b` in [0,100], `onTimeUs + offTimeUs = ⌊1000000 / f⌋` exactly (so
within the claim's 1 microsecond tolerance); `b = 0` forces
`onTimeUs = 0` and `b = 100` forces `offTimeUs = 0` (the converses fail
at high frequencies); and at `f = 100`, `b = 50` the driver computes
period 10000us, on 5000us, off 5000us exactly. -/
theorem pwm_timings_correct (f b : ℚ) (hf : 0 < f) (hb0 : 0 ≤ b) (hb1 : b ≤ 100) :
    (pwmCompute f b).onTimeUs + (pwmCompute f b).offTimeUs = ⌊(1000000 : ℚ) / f⌋
      ∧ (b = 0 → (pwmCompute f b).onTimeUs = 0)
      ∧ (b = 100 → (pwmCompute f b).offTimeUs = 0)
      ∧ pwmCompute 100 50 = ⟨10000, 5000, 5000⟩ := by
  obtain ⟨hon, hoff⟩ := pwmCompute_off_eq f b hf hb0 hb1
  refine ⟨by omega, ?_, ?_, ?_⟩
  · intro hb
    subst hb
    rw [hon]
    norm_num
  · intro hb
    subst hb
    rw [hoff, hon]
    norm_num
  · norm_num [pwmCompute, cLong]

/-- Witness for `pwm_timings_correct` at `f = 100`, `b = 50`. -/
theorem pwm_timings_correct_witness :
    (pwmCompute 100 50).onTimeUs + (pwmCompute 100 50).offTimeUs
        = ⌊(1000000 : ℚ) / 100⌋
      ∧ pwmCompute 100 50 = ⟨10000, 5000, 5000⟩ :=
  ⟨(pwm_timings_correct 100 50 (by norm_num) (by norm_num) (by norm_num)).1,
   (pwm_timings_correct 100 50 (by norm_num) (by norm_num) (by norm_num)).2.2.2⟩

/-- Replacing a non-positive frequency behaves exactly like frequency 1:
the source's own clamp. -/
theorem pwmCompute_freq_clamp (f b : ℚ) (h : f ≤ 0) :
    pwmCompute f b = pwmCompute 1 b := by
  simp only [pwmCompute, if_pos h]
  norm_num

/-- C5: brightness -5 behaves identically to 0, brightness 150 to 100,
and a non-positive frequency to frequency 1: the computed timings are
equal and hence so is the sequence of line operations each iteration. -/
theorem pwm_clamping_equiv (f fneg b : ℚ) (hf : fneg ≤ 0) :
    pwmCompute f (-5) = pwmCompute f 0
      ∧ pwmCompute f 150 = pwmCompute f 100
      ∧ pwmCompute fneg b = pwmCompute 1 b
      ∧ pwmLoopIter (pwmCompute f (-5)) = pwmLoopIter (pwmCompute f 0)
      ∧ pwmLoopIter (pwmCompute f 150) = pwmLoopIter (pwmCompute f 100)
      ∧ pwmLoopIter (pwmCompute fneg b) = pwmLoopIter (pwmCompute 1 b) := by
  have h1 : pwmCompute f (-5) = pwmCompute f 0 := by
    simp only [pwmCompute]
    norm_num
  have h2 : pwmCompute f 150 = pwmCompute f 100 := by
    simp only [pwmCompute]
    norm_num
  have h3 := pwmCompute_freq_clamp fneg b hf
  exact ⟨h1, h2, h3, congrArg _ h1, congrArg _ h2, congrArg _ h3⟩

/-- Witness for `pwm_clamping_equiv` at `f = 100`, `fneg = -3`, `b = 50`. -/
theorem pwm_clamping_equiv_witness :
    pwmCompute 100 (-5) = pwmCompute 100 0
      ∧ pwmCompute (-3) 50 = pwmCompute 1 50 :=
  ⟨(pwm_clamping_equiv 100 (-3) 50 (by norm_num)).1,
   (pwm_clamping_equiv 100 (-3) 50 (by norm_num)).2.2.1⟩

/-- Membership facts for one loop iteration, for arbitrary timings. -/
theorem pwmLoopIter_mem (u : PwmTimings) :
    (PwmEv.setLine 1 ∈ pwmLoopIter u ↔ 0 < u.onTimeUs)
      ∧ (PwmEv.setLine 0 ∈ pwmLoopIter u ↔ 0 < u.offTimeUs)
      ∧ ∀ d, PwmEv.sleepMicros d ∈ pwmLoopIter u → 0 < d := by
  by_cases hon : 0 < u.onTimeUs <;> by_cases hoff : 0 < u.offTimeUs
  · refine ⟨by simp [pwmLoopIter, hon, hoff], by simp [pwmLoopIter, hon, hoff], ?_⟩
    intro d hd
    simp [pwmLoopIter, hon, hoff] at hd
    rcases hd with rfl | rfl <;> assumption
  · refine ⟨by simp [pwmLoopIter, hon, hoff], by simp [pwmLoopIter, hon, hoff], ?_⟩
    intro d hd
    simp [pwmLoopIter, hon, hoff] at hd
    subst hd
    exact hon
  · refine ⟨by simp [pwmLoopIter, hon, hoff], by simp [pwmLoopIter, hon, hoff], ?_⟩
    intro d hd
    simp [pwmLoopIter, hon, hoff] at hd
    subst hd
    exact hoff
  · refine ⟨by simp [pwmLoopIter, hon, hoff], by simp [pwmLoopIter, hon, hoff], ?_⟩
    intro d hd
    simp [pwmLoopIter, hon, hoff] at hd

/-- At brightness 0 the on-duration is 0, whatever the frequency. -/
theorem pwm_on_zero (f : ℚ) : (pwmCompute f 0).onTimeUs = 0 := by
  norm_num [pwmCompute, cLong]

/-- At brightness 100 the off-duration is 0 for any positive frequency. -/
theorem pwm_off_zero_pos (f : ℚ) (hf : 0 < f) :
    (pwmCompute f 100).offTimeUs = 0 := by
  obtain ⟨hon, hoff⟩ := pwmCompute_off_eq f 100 hf (by norm_num) (by norm_num)
  rw [hoff, hon]
  norm_num

/-- At brightness 100 the off-duration is 0, whatever the frequency. -/
theorem pwm_off_zero (f : ℚ) : (pwmCompute f 100).offTimeUs = 0 := by
  by_cases h : f ≤ 0
  · rw [pwmCompute_freq_clamp f 100 h]
    exact pwm_off_zero_pos 1 (by norm_num)
  · exact pwm_off_zero_pos f (by linarith [not_le.mp h])

/-- C8: in each loop iteration the line is set high (and slept on) only
when `onTimeUs > 0` and set low (and slept on) only when
`offTimeUs > 0`; every sleep has positive duration (no zero-length
sleep); at 0% brightness the line is never set high and at 100%
brightness it is never set low, for any input frequency. -/
theorem pwm_loop_skips_empty_phase (t : PwmTimings) (f : ℚ) :
    (PwmEv.setLine 1 ∈ pwmLoopIter t ↔ 0 < t.onTimeUs)
      ∧ (PwmEv.setLine 0 ∈ pwmLoopIter t ↔ 0 < t.offTimeUs)
      ∧ (∀ d, PwmEv.sleepMicros d ∈ pwmLoopIter t → 0 < d)
      ∧ PwmEv.setLine 1 ∉ pwmLoopIter (pwmCompute f 0)
      ∧ PwmEv.setLine 0 ∉ pwmLoopIter (pwmCompute f 100) := by
  obtain ⟨h1, h2, h3⟩ := pwmLoopIter_mem t
  refine ⟨h1, h2, h3, ?_, ?_⟩
  · rw [(pwmLoopIter_mem (pwmCompute f 0)).1, pwm_on_zero f]
    decide
  · rw [(pwmLoopIter_mem (pwmCompute f 100)).2.1, pwm_off_zero f]
    decide

end Pwm
